import Mathlib

/-!
# Error chains of `gokit/errors` and their use in `gokit/rest`

A shallow embedding of `errors/errors.go`: the struct `err`, its methods
`Error`, `Code`, `Wrap`, `Unwrap`, `Is`, the constructors `New` and
`NewWithErr`, and the package functions `Is` (the standard library's
`errors.Is`), `OneOf` and `IsOnly`.

Conventions of the embedding.

* A Go interface value that may be nil is an `Option`; `none` is nil.
* `err` is the struct of the package.  Its field `err Error` only ever holds
  nil or another `err` (the type is unexported and the field is written by
  `Wrap` alone), so the field is an `Option err`.
* `error` is a non-nil value of Go's interface `error`: either an `err`, or a
  value of some other error type.
* `strings.ToLower` is modelled on the ASCII letters.
-/

namespace errors

/-! ## Strings -/

/-- Model of `strings.ToLower`: every rune is mapped to lower case.  The case
mapping is the one of the ASCII letters `A`..`Z`. -/
def ToLower (s : String) : String :=
  String.mk (s.data.map Char.toLower)

/-! ## Data model -/

/-- The struct `err` of `errors.go`:
`type err struct { msg string; code string; err Error }`. -/
inductive err where
  | mk (msg : String) (code : String) (err : Option err)

/-- Field `msg`. -/
def err.msg : err → String
  | .mk msg _ _ => msg

/-- Field `code`. -/
def err.code : err → String
  | .mk _ code _ => code

/-- Field `err`, the wrapped cause (named `cause` here: inside the namespace
of the struct the name `err` is the struct itself). -/
def err.cause : err → Option err
  | .mk _ _ cause => cause

/-- A non-nil value of Go's interface `error`.

* `chain e`: the dynamic type is the struct `err` of this package.
* `other id comparable msg cause`: a value of some other error type.  `id`
  identifies the dynamic type and value, `comparable` is what
  `reflect.TypeOf(x).Comparable()` reports, `msg` is what `Error()` returns and
  `cause` is what `errors.Unwrap` returns for it.  Such a value carries no
  `Is` method. -/
inductive error where
  | chain (e : err)
  | other (id : Nat) (comparable : Bool) (msg : String) (cause : Option error)

/-- Go's `==` on two values of the struct `err`: field by field, the field
`err` being compared as an interface value (both nil, or both non-nil and
equal). -/
def err.eq : err → err → Bool
  | .mk m₁ c₁ none, .mk m₂ c₂ none => decide (m₁ = m₂) && decide (c₁ = c₂)
  | .mk m₁ c₁ (some n₁), .mk m₂ c₂ (some n₂) =>
      decide (m₁ = m₂) && decide (c₁ = c₂) && err.eq n₁ n₂
  | .mk _ _ none, .mk _ _ (some _) => false
  | .mk _ _ (some _), .mk _ _ none => false

/-- Go's `==` on two non-nil interface values of type `error`: same dynamic
type and equal dynamic values.  Go panics instead of answering when both
operands have one dynamic type that holds a non-comparable value; the embedding
has no panic, so its answer stands for the code only when the operands have
different dynamic types, when both are `err` values, or when the values of the
other type are comparable throughout. -/
def error.eq : error → error → Bool
  | .chain e₁, .chain e₂ => err.eq e₁ e₂
  | .other i₁ k₁ m₁ none, .other i₂ k₂ m₂ none =>
      decide (i₁ = i₂) && decide (k₁ = k₂) && decide (m₁ = m₂)
  | .other i₁ k₁ m₁ (some n₁), .other i₂ k₂ m₂ (some n₂) =>
      decide (i₁ = i₂) && decide (k₁ = k₂) && decide (m₁ = m₂) && error.eq n₁ n₂
  | _, _ => false

/-- Go's `==` on two interface values of type `error`, nil included. -/
def ifaceEq : Option error → Option error → Bool
  | none, none => true
  | some a, some b => error.eq a b
  | _, _ => false

/-! ## Methods of `err` -/

/-- Method `func (e err) Error() string`. -/
def err.Error (e : err) : String :=
  ToLower e.msg

/-- Method `func (e err) Code() string`. -/
def err.Code (e : err) : String :=
  ToLower e.code

/-- Method `Error()` of a non-nil `error`. -/
def error.Error : error → String
  | .chain e => e.Error
  | .other _ _ msg _ => msg

/-- Result of `reflect.TypeOf(x).Comparable()`; the struct `err` has two string fields
and one interface field, so its type is comparable. -/
def error.Comparable : error → Bool
  | .chain _ => true
  | .other _ comparable _ _ => comparable

/-- Constructor `func New(msg string, code string) Error`. -/
def New (msg : String) (code : String) : err :=
  .mk msg code none

/-- Method `func (e err) Wrap(err error) Error`. -/
def err.Wrap : err → Option error → err
  | e, none => e
  | .mk msg code (some n), some a => .mk msg code (some (err.Wrap n (some a)))
  | .mk msg code none, some a =>
      .mk msg code (some (New a.Error (err.Code (.mk msg code none))))

/-- Constructor `func NewWithErr(msg, code string, ext error) Error`. -/
def NewWithErr (msg code : String) (ext : Option error) : err :=
  (New msg code).Wrap ext

/-- Method `func (e err) Unwrap() error`: the field `err`, converted to `error`. -/
def err.Unwrap (e : err) : Option error :=
  e.cause.map error.chain

/-- Method `func (e err) Is(err error) bool`. -/
def err.Is (e : err) (target : error) : Bool :=
  decide (e.msg = target.Error)

/-- Sentinel `var ErrUnknown = New("unknown error", "errors_unknown")`. -/
def ErrUnknown : err :=
  New "unknown error" "errors_unknown"

/-! ## Package functions -/

/-- Function `errors.Unwrap` of the standard library. -/
def Unwrap : Option error → Option error
  | none => none
  | some (.chain e) => e.Unwrap
  | some (.other _ _ _ cause) => cause

/-- The loop of `errors.Is`, the walked value being an `err`: at every hop,
value equality when the target is comparable, then the `Is` method of the
node, then one `Unwrap`. -/
def err.isLoop (target : error) (isComparable : Bool) : err → Bool
  | .mk msg code none =>
      if isComparable && error.eq (.chain (.mk msg code none)) target then true
      else if err.Is (.mk msg code none) target then true
      else false
  | .mk msg code (some n) =>
      if isComparable && error.eq (.chain (.mk msg code (some n))) target then true
      else if err.Is (.mk msg code (some n)) target then true
      else err.isLoop target isComparable n

/-- The loop of `errors.Is` on any non-nil `error`. -/
def error.isLoop (target : error) (isComparable : Bool) : error → Bool
  | .chain e => err.isLoop target isComparable e
  | .other id k msg none =>
      if isComparable && error.eq (.other id k msg none) target then true
      else false
  | .other id k msg (some n) =>
      if isComparable && error.eq (.other id k msg (some n)) target then true
      else error.isLoop target isComparable n

/-- Function `var Is = errors.Is`, the standard library's `errors.Is`. -/
def Is (err target : Option error) : Bool :=
  match target with
  | none => ifaceEq err none
  | some t =>
      match err with
      | none => false
      | some e => error.isLoop t t.Comparable e

/-- The `for` loop of `OneOf`. -/
def OneOf.loop (err : Option error) : List (Option error) → Bool
  | [] => false
  | target :: rest => if Is err target then true else OneOf.loop err rest

/-- Function `func OneOf(err error, targets ...error) bool`. -/
def OneOf (err : Option error) (targets : List (Option error)) : Bool :=
  if targets.length = 0 then false
  else OneOf.loop err targets

/-- Function `func IsOnly(err, target error) bool`. -/
def IsOnly (err target : Option error) : Bool :=
  match target with
  | none => ifaceEq err none
  | some t =>
      let isComparable := t.Comparable
      if isComparable && !ifaceEq err (some t) then false
      else if (match err with
               | some (.chain x) => !x.Is t
               | _ => false) then false
      else if !ifaceEq (Unwrap err) none then false
      else true


/-! ## Views of a chain -/

/-- The nodes of a chain, head first: the values reached by repeated
`Unwrap`, the chain itself included. -/
def err.nodes : err → List err
  | .mk msg code none => [.mk msg code none]
  | .mk msg code (some n) => .mk msg code (some n) :: err.nodes n

/-- The deepest node of a chain, reached by repeated `Unwrap`. -/
def err.last : err → err
  | .mk msg code none => .mk msg code none
  | .mk _ _ (some n) => err.last n

/-- The stored message and code of every node, head first. -/
def err.fields (e : err) : List (String × String) :=
  e.nodes.map (fun n => (n.msg, n.code))

/-- A string is in lower case when lower-casing leaves it unchanged. -/
def IsLower (s : String) : Prop :=
  ToLower s = s

instance IsLower.decidable (s : String) : Decidable (IsLower s) :=
  inferInstanceAs (Decidable (ToLower s = s))

/-- The chains that the exported API can build. -/
inductive Built : err → Prop
  | new (msg code : String) : Built (New msg code)
  | newWithErr (msg code : String) (ext : Option error) : Built (NewWithErr msg code ext)
  | wrap (e : err) (x : Option error) : Built e → Built (e.Wrap x)

end errors

/-! # The response boundary of `gokit/rest`

The part of `rest/errors.go` and `rest/request.go` that turns an error into a
response. -/

namespace rest

/-- Constant `http.StatusUnauthorized` of the standard library. -/
def StatusUnauthorized : Int := 401

/-- Constant `http.StatusForbidden` of the standard library. -/
def StatusForbidden : Int := 403

/-- The struct `Response` of `request.go`.  `Data` is an `interface{}`: nil or
some payload, of which only the presence is kept.  `Header` is a map, nil or a
list of entries. -/
structure Response where
  Data : Option Unit
  StatusCode : Int
  Header : Option (List (String × String))
  Err : String
  Code : String

/-- Function `func NewError(statusCode int, err error) *Response`.  The type
assertion `err.(errors.Error)` succeeds on the values of the struct `err`; a
value of another error type has no `Is` method and so does not implement
`errors.Error`. -/
def NewError (statusCode : Int) (err : Option errors.error) : Response :=
  let code : String :=
    match err with
    | some (.chain sigiErr) => sigiErr.Code
    | _ => ""
  let description : String :=
    match err with
    | some (.chain sigiErr) => (errors.error.chain sigiErr).Error
    | _ => ""
  Response.mk none statusCode none description code

/-- Function `func Unauthorized(err error) *Response`. -/
def Unauthorized (err : Option errors.error) : Response :=
  NewError StatusForbidden err

/-- Function `func Forbidden() *Response`. -/
def Forbidden : Response :=
  NewError StatusForbidden none

end rest

namespace errors

/-! ## Lemmas -/

@[simp] theorem err.msg_mk (m c : String) (n : Option err) : (err.mk m c n).msg = m := rfl

@[simp] theorem err.code_mk (m c : String) (n : Option err) : (err.mk m c n).code = c := rfl

@[simp] theorem err.cause_mk (m c : String) (n : Option err) : (err.mk m c n).cause = n := rfl

theorem toNat_ofNat_add (n : Nat) (h₁ : 65 ≤ n) (h₂ : n ≤ 90) :
    (Char.ofNat (n + 32)).toNat = n + 32 := by
  interval_cases n <;> rfl

theorem toLower_toLower (c : Char) : c.toLower.toLower = c.toLower := by
  by_cases h : c.toNat ≥ 65 ∧ c.toNat ≤ 90
  · have h1 := toNat_ofNat_add c.toNat h.1 h.2
    have h2 : c.toLower = Char.ofNat (c.toNat + 32) := by
      simp only [Char.toLower, h, and_self, if_true]
    have h3 : ¬ ((Char.ofNat (c.toNat + 32)).toNat ≥ 65 ∧
        (Char.ofNat (c.toNat + 32)).toNat ≤ 90) := by
      rw [h1]; omega
    rw [h2]
    simp only [Char.toLower, h3, if_false]
  · have h2 : c.toLower = c := by
      simp only [Char.toLower, h, if_false]
    rw [h2, h2]

theorem ToLower_idem (s : String) : ToLower (ToLower s) = ToLower s := by
  simp only [ToLower, List.map_map]
  congr 1
  apply List.map_congr_left
  intro c _
  exact toLower_toLower c

theorem err.nodes_ne_nil : ∀ e : err, e.nodes ≠ []
  | .mk _ _ none => by simp [err.nodes]
  | .mk _ _ (some _) => by simp [err.nodes]

theorem err.fields_Wrap (a : error) :
    ∀ e : err, (e.Wrap (some a)).fields = e.fields ++ [(a.Error, e.last.Code)]
  | .mk m c none => by
      simp [err.Wrap, err.fields, err.nodes, err.last, New]
  | .mk m c (some n) => by
      have ih := err.fields_Wrap a n
      simp only [err.fields] at ih
      simp [err.Wrap, err.fields, err.nodes, err.last, ih]

theorem err.nodes_Wrap_length (a : error) :
    ∀ e : err, (e.Wrap (some a)).nodes.length = e.nodes.length + 1
  | .mk m c none => by simp [err.Wrap, err.nodes, New]
  | .mk m c (some n) => by
      have ih := err.nodes_Wrap_length a n
      simp [err.Wrap, err.nodes, ih]

theorem err.fields_length (e : err) : e.fields.length = e.nodes.length := by
  simp [err.fields]

theorem err.last_Wrap (a : error) :
    ∀ e : err, (e.Wrap (some a)).last = New a.Error e.last.Code
  | .mk m c none => by simp [err.Wrap, err.last, New]
  | .mk m c (some n) => by
      have ih := err.last_Wrap a n
      simp [err.Wrap, err.last, ih]

theorem err.msg_Wrap (x : Option error) : ∀ e : err, (e.Wrap x).msg = e.msg
  | .mk m c none => by cases x <;> simp [err.Wrap]
  | .mk m c (some n) => by cases x <;> simp [err.Wrap]

theorem err.code_Wrap (x : Option error) : ∀ e : err, (e.Wrap x).code = e.code
  | .mk m c none => by cases x <;> simp [err.Wrap]
  | .mk m c (some n) => by cases x <;> simp [err.Wrap]

theorem err.cause_Wrap_ne_none (a : error) : ∀ e : err, (e.Wrap (some a)).cause ≠ none
  | .mk m c none => by simp [err.Wrap]
  | .mk m c (some n) => by simp [err.Wrap]

theorem err.Wrap_none : ∀ e : err, e.Wrap none = e
  | .mk m c none => by simp [err.Wrap]
  | .mk m c (some n) => by simp [err.Wrap]

/-- A node whose stored message is the target's `Error()` makes the loop of
`errors.Is` answer true. -/
theorem err.isLoop_of_msg_mem (t : error) (k : Bool) :
    ∀ e : err, t.Error ∈ e.fields.map Prod.fst → err.isLoop t k e = true
  | .mk m c none => by
      intro h
      have hm : m = t.Error := by simpa [err.fields, err.nodes, eq_comm] using h
      simp [err.isLoop, err.Is, hm]
  | .mk m c (some n) => by
      intro h
      have h' : t.Error = m ∨ t.Error ∈ n.fields.map Prod.fst := by
        simpa [err.fields, err.nodes] using h
      rcases h' with hm | hn
      · simp [err.isLoop, err.Is, hm]
      · have ih := err.isLoop_of_msg_mem t k n hn
        simp [err.isLoop, ih]

theorem err.msg_mem_fields_Wrap (a : error) (e : err) :
    a.Error ∈ (e.Wrap (some a)).fields.map Prod.fst := by
  simp [err.fields_Wrap]

theorem err.msg_mem_fields_Wrap_of_mem (s : String) (x : error) (e : err)
    (h : s ∈ e.fields.map Prod.fst) : s ∈ (e.Wrap (some x)).fields.map Prod.fst := by
  rw [err.fields_Wrap, List.map_append, List.mem_append]
  exact Or.inl h

theorem Is_of_msg_mem (e : err) (t : error) (h : t.Error ∈ e.fields.map Prod.fst) :
    Is (some (.chain e)) (some t) = true := by
  simp [Is, error.isLoop, err.isLoop_of_msg_mem t _ e h]

theorem OneOf_singleton (x t : Option error) : OneOf x [t] = Is x t := by
  simp [OneOf, OneOf.loop]

/-- The comparison `err.eq` is equality of the struct values. -/
theorem err.eq_iff : ∀ a b : err, err.eq a b = true ↔ a = b
  | .mk m₁ c₁ none, .mk m₂ c₂ none => by simp [err.eq]
  | .mk m₁ c₁ (some n₁), .mk m₂ c₂ (some n₂) => by
      have ih := err.eq_iff n₁ n₂
      simp [err.eq, ih, and_assoc]
  | .mk _ _ none, .mk _ _ (some _) => by simp [err.eq]
  | .mk _ _ (some _), .mk _ _ none => by simp [err.eq]

theorem Built.tail_codes_lower {e : err} (h : Built e) :
    ∀ p ∈ e.fields.tail, IsLower p.2 := by
  have step : ∀ (e : err) (x : Option error),
      (∀ p ∈ e.fields.tail, IsLower p.2) → ∀ p ∈ (e.Wrap x).fields.tail, IsLower p.2 := by
    intro e x ih
    cases x with
    | none => rw [err.Wrap_none]; exact ih
    | some a =>
        have hne : e.fields ≠ [] := by
          simp [err.fields, err.nodes_ne_nil]
        rw [err.fields_Wrap, List.tail_append_of_ne_nil hne]
        intro p hp
        rcases List.mem_append.mp hp with hp | hp
        · exact ih p hp
        · have : p = (a.Error, e.last.Code) := by simpa using hp
          subst this
          exact ToLower_idem _
  induction h with
  | new msg code => simp [New, err.fields, err.nodes]
  | newWithErr msg code ext =>
      exact step (New msg code) ext (by simp [New, err.fields, err.nodes])
  | wrap e x _ ih => exact step e x ih

/-! ## Claims -/

/-- C1: for every chain `e` and all non-nil errors `a`, `b`, `c`, the chain
`r = e.Wrap(a).Wrap(b).Wrap(c)` satisfies `Is(r, a)`, `Is(r, b)` and
`Is(r, c)`, and so `OneOf(r, a)`, `OneOf(r, b)` and `OneOf(r, c)`. -/
theorem C1_wrap_three_is (e : err) (a b c : error) :
    Is (some (.chain (((e.Wrap (some a)).Wrap (some b)).Wrap (some c)))) (some a) = true ∧
    Is (some (.chain (((e.Wrap (some a)).Wrap (some b)).Wrap (some c)))) (some b) = true ∧
    Is (some (.chain (((e.Wrap (some a)).Wrap (some b)).Wrap (some c)))) (some c) = true ∧
    OneOf (some (.chain (((e.Wrap (some a)).Wrap (some b)).Wrap (some c)))) [some a] = true ∧
    OneOf (some (.chain (((e.Wrap (some a)).Wrap (some b)).Wrap (some c)))) [some b] = true ∧
    OneOf (some (.chain (((e.Wrap (some a)).Wrap (some b)).Wrap (some c)))) [some c] = true := by
  have ha : Is (some (.chain (((e.Wrap (some a)).Wrap (some b)).Wrap (some c)))) (some a)
      = true :=
    Is_of_msg_mem _ _ (err.msg_mem_fields_Wrap_of_mem _ _ _
      (err.msg_mem_fields_Wrap_of_mem _ _ _ (err.msg_mem_fields_Wrap a e)))
  have hb : Is (some (.chain (((e.Wrap (some a)).Wrap (some b)).Wrap (some c)))) (some b)
      = true :=
    Is_of_msg_mem _ _ (err.msg_mem_fields_Wrap_of_mem _ _ _
      (err.msg_mem_fields_Wrap b (e.Wrap (some a))))
  have hc : Is (some (.chain (((e.Wrap (some a)).Wrap (some b)).Wrap (some c)))) (some c)
      = true :=
    Is_of_msg_mem _ _ (err.msg_mem_fields_Wrap c ((e.Wrap (some a)).Wrap (some b)))
  refine ⟨ha, hb, hc, ?_, ?_, ?_⟩
  · rw [OneOf_singleton]; exact ha
  · rw [OneOf_singleton]; exact hb
  · rw [OneOf_singleton]; exact hc

/-- C2: for every message `m` and code `c`, `New(m, c).Error()` is `m` in
lower case and `New(m, c).Code()` is `c` in lower case. -/
theorem C2_new_error_code_lowered (m c : String) :
    (New m c).Error = ToLower m ∧ (New m c).Code = ToLower c :=
  ⟨rfl, rfl⟩

/-- C3 (the code at the failing input): `IsOnly(x, x)` is true for the terminal
node `ErrUnknown`, whose message is in lower case, and false for the terminal
node `New("A", "c")`, whose message holds an upper-case letter; for a terminal
node `x = New(m, c)`, `IsOnly(x, x)` is true exactly when `m` is in lower
case. -/
theorem C3_isOnly_self_terminal_mixed_case :
    IsOnly (some (.chain ErrUnknown)) (some (.chain ErrUnknown)) = true ∧
    IsOnly (some (.chain (New "A" "c"))) (some (.chain (New "A" "c"))) = false ∧
    ∀ m c : String,
      (IsOnly (some (.chain (New m c))) (some (.chain (New m c))) = true ↔ IsLower m) := by
  refine ⟨by decide, by decide, ?_⟩
  intro m c
  simp only [IsOnly, New, ifaceEq, error.eq, err.eq, error.Comparable, err.Is, error.Error,
    err.Error, Unwrap, err.Unwrap, IsLower, err.msg_mk, err.cause_mk, Option.map]
  constructor
  · intro h
    by_cases hm : m = ToLower m
    · exact hm.symm
    · simp [hm] at h
  · intro h
    simp [h]

/-- C4: a chain that has a cause, `x = e.Wrap(a)` with `a` non-nil, fails
`IsOnly` against every target `t`, nil included; so `IsOnly(x, x)` and
`IsOnly(x, a)` are false. -/
theorem C4_isOnly_false_with_cause (e : err) (a : error) (t : Option error) :
    IsOnly (some (.chain (e.Wrap (some a)))) t = false := by
  have hc := err.cause_Wrap_ne_none a e
  cases t with
  | none => rfl
  | some t =>
      cases hw : (e.Wrap (some a)).cause with
      | none => exact absurd hw hc
      | some n =>
          simp [IsOnly, Unwrap, err.Unwrap, hw, ifaceEq]

/-- C5 (the code at the failing input): the `Is` method of a node compares the
stored message with the lower-cased message of the target, so
`New("A", "c1").Is(New("A", "c2"))` is false while
`New("a", "c1").Is(New("a", "c2"))` is true; `New(m, c1).Is(New(m, c2))` is true
exactly when `m` is in lower case. -/
theorem C5_node_is_mixed_case :
    (New "A" "c1").Is (.chain (New "A" "c2")) = false ∧
    (New "a" "c1").Is (.chain (New "a" "c2")) = true ∧
    ∀ m c₁ c₂ : String, ((New m c₁).Is (.chain (New m c₂)) = true ↔ IsLower m) := by
  refine ⟨by decide, by decide, ?_⟩
  intro m c₁ c₂
  simp only [New, err.Is, error.Error, err.Error, IsLower, err.msg_mk, decide_eq_true_eq]
  exact eq_comm

/-- C6: for every chain `e` and non-nil error `a`, the deepest node of
`e.Wrap(a)` has no cause, its `Error()` is `a.Error()` in lower case, and its
`Code()` is the `Code()` of the node that was the tail of `e`. -/
theorem C6_wrap_deepest_node (e : err) (a : error) :
    (e.Wrap (some a)).last.Unwrap = none ∧
    (e.Wrap (some a)).last.Error = ToLower a.Error ∧
    (e.Wrap (some a)).last.Code = e.last.Code := by
  rw [err.last_Wrap]
  refine ⟨rfl, rfl, ?_⟩
  show ToLower (ToLower e.last.code) = ToLower e.last.code
  exact ToLower_idem _

/-- C7: `Wrap` appends at the tail.  For every chain `e` with `n` nodes and
non-nil error `a`, `e.Wrap(a)` has `n + 1` nodes, its first `n` nodes store the
messages and codes of the nodes of `e` in order, `Error()` and `Code()` of the
head are unchanged, and a further `Wrap(b)` keeps the `n + 1` nodes in order. -/
theorem C7_wrap_appends_at_tail (e : err) (a : error) :
    (e.Wrap (some a)).nodes.length = e.nodes.length + 1 ∧
    (e.Wrap (some a)).fields.take e.nodes.length = e.fields ∧
    (e.Wrap (some a)).Error = e.Error ∧
    (e.Wrap (some a)).Code = e.Code ∧
    ∀ b : error, ((e.Wrap (some a)).Wrap (some b)).fields.take (e.nodes.length + 1)
      = (e.Wrap (some a)).fields := by
  refine ⟨err.nodes_Wrap_length a e, ?_, ?_, ?_, ?_⟩
  · rw [err.fields_Wrap, ← err.fields_length, List.take_left]
  · simp [err.Error, err.msg_Wrap]
  · simp [err.Code, err.code_Wrap]
  · intro b
    rw [err.fields_Wrap b, ← err.nodes_Wrap_length a e, ← err.fields_length, List.take_left]

/-- C8: `Wrap(nil)` is the identity: `e.Wrap(nil)` is `e`, with the same
message, code and cause. -/
theorem C8_wrap_nil_identity (e : err) :
    e.Wrap none = e ∧
    (e.Wrap none).Error = e.Error ∧
    (e.Wrap none).Code = e.Code ∧
    (e.Wrap none).Unwrap = e.Unwrap := by
  rw [err.Wrap_none]
  exact ⟨rfl, rfl, rfl, rfl⟩

/-- C9, as stated, fails: with `a = New("x", "c").Wrap(New("y", "c"))` and
`t = New("y", "c")`, `Is(a, t)` is true while `Is(New("z", "c").Wrap(a), t)` is
false. -/
theorem C9_causes_of_wrapped_error_dropped :
    ¬ (Is (some (.chain ((New "x" "c").Wrap (some (.chain (New "y" "c"))))))
          (some (.chain (New "y" "c"))) = true →
       Is (some (.chain ((New "z" "c").Wrap
            (some (.chain ((New "x" "c").Wrap (some (.chain (New "y" "c")))))))))
          (some (.chain (New "y" "c"))) = true) := by
  decide

/-- C9 (amended): `Wrap` keeps the message of the error it wraps.  For every
chain `e`, non-nil error `a` and target `t` whose `Error()` equals `a.Error()`,
`Is(e.Wrap(a), t)` is true. -/
theorem C9_wrap_keeps_message (e : err) (a t : error) (h : t.Error = a.Error) :
    Is (some (.chain (e.Wrap (some a)))) (some t) = true := by
  apply Is_of_msg_mem
  rw [h]
  exact err.msg_mem_fields_Wrap a e

/-- Witness of C9 (amended): a mixed-case terminal error is wrapped, and the
target is an error of another type with the same lower-case message. -/
theorem C9_wrap_keeps_message_witness :
    (error.other 7 true "boom" none).Error = (error.chain (New "Boom" "c")).Error ∧
    Is (some (.chain ((New "z" "d").Wrap (some (.chain (New "Boom" "c"))))))
      (some (.other 7 true "boom" none)) = true :=
  ⟨by decide, C9_wrap_keeps_message (New "z" "d") (.chain (New "Boom" "c"))
    (.other 7 true "boom" none) (by decide)⟩

/-- C10, as stated, fails: `New("A", "B")` is a chain built with `New` whose
stored message and code are not in lower case. -/
theorem C10_new_stores_mixed_case :
    Built (New "A" "B") ∧
    ¬ (∀ n ∈ (New "A" "B").nodes, IsLower n.msg ∧ IsLower n.code) :=
  ⟨Built.new "A" "B", by decide⟩

/-- C10 (amended): in every chain built with `New`, `NewWithErr` and `Wrap`,
`Error()` and `Code()` of every node are in lower case and every node after
the head stores a code in lower case; `New` stores message and code as
given. -/
theorem C10_built_lower_case (e : err) (h : Built e) :
    (∀ n ∈ e.nodes, IsLower n.Error ∧ IsLower n.Code) ∧
    (∀ n ∈ e.nodes.tail, IsLower n.code) ∧
    (∀ m c : String, (New m c).msg = m ∧ (New m c).code = c) := by
  refine ⟨fun n _ => ⟨ToLower_idem _, ToLower_idem _⟩, ?_, fun m c => ⟨rfl, rfl⟩⟩
  intro n hn
  have ht := Built.tail_codes_lower h
  apply ht (n.msg, n.code)
  rw [err.fields, ← List.map_tail]
  exact List.mem_map_of_mem _ hn

/-- Witness of C10 (amended): a mixed-case head wrapped with a mixed-case
error. -/
theorem C10_built_lower_case_witness :
    Built ((New "A" "B").Wrap (some (.chain (New "C" "D")))) ∧
    ((∀ n ∈ ((New "A" "B").Wrap (some (.chain (New "C" "D")))).nodes,
        IsLower n.Error ∧ IsLower n.Code) ∧
     (∀ n ∈ ((New "A" "B").Wrap (some (.chain (New "C" "D")))).nodes.tail,
        IsLower n.code) ∧
     (∀ m c : String, (New m c).msg = m ∧ (New m c).code = c)) :=
  ⟨Built.wrap _ _ (Built.new "A" "B"),
   C10_built_lower_case _ (Built.wrap _ _ (Built.new "A" "B"))⟩

/-! ## Further lemmas -/

theorem err.eq_self (e : err) : err.eq e e = true :=
  (err.eq_iff e e).mpr rfl

theorem err.last_mem_nodes : ∀ e : err, e.last ∈ e.nodes
  | .mk _ _ none => by simp [err.last, err.nodes]
  | .mk m c (some n) => by
      have ih := err.last_mem_nodes n
      simp [err.last, err.nodes, ih]

theorem err.mem_fields_of_mem_nodes (e n : err) (h : n ∈ e.nodes) :
    (n.msg, n.code) ∈ e.fields := by
  unfold err.fields
  exact List.mem_map_of_mem _ h

/-- In a chain built through the API every node has the `Code()` of the
head. -/
theorem Built.codes_eq_head {e : err} (h : Built e) :
    ∀ p ∈ e.fields, ToLower p.2 = e.Code := by
  have base : ∀ m c : String, ∀ p ∈ (New m c).fields, ToLower p.2 = (New m c).Code := by
    intro m c p hp
    have : p = (m, c) := by simpa [New, err.fields, err.nodes] using hp
    subst this
    rfl
  have step : ∀ (e : err) (x : Option error),
      (∀ p ∈ e.fields, ToLower p.2 = e.Code) →
      ∀ p ∈ (e.Wrap x).fields, ToLower p.2 = (e.Wrap x).Code := by
    intro e x ih
    cases x with
    | none => rw [err.Wrap_none]; exact ih
    | some a =>
        have hcode : (e.Wrap (some a)).Code = e.Code := by
          simp [err.Code, err.code_Wrap]
        have hlast : e.last.Code = e.Code :=
          ih _ (err.mem_fields_of_mem_nodes e e.last (err.last_mem_nodes e))
        rw [err.fields_Wrap, hcode]
        intro p hp
        rcases List.mem_append.mp hp with hp | hp
        · exact ih p hp
        · have : p = (a.Error, e.last.Code) := by simpa using hp
          subst this
          show ToLower e.last.Code = e.Code
          rw [hlast]
          exact ToLower_idem _
  induction h with
  | new msg code => exact base msg code
  | newWithErr msg code ext => exact step (New msg code) ext (base msg code)
  | wrap e x _ ih => exact step e x ih

theorem Built.node_code_eq_head {e : err} (h : Built e) (n : err) (hn : n ∈ e.nodes) :
    n.Code = e.Code :=
  Built.codes_eq_head h _ (err.mem_fields_of_mem_nodes e n hn)

theorem OneOf.loop_iff (x : Option error) :
    ∀ ts : List (Option error), OneOf.loop x ts = true ↔ ∃ t ∈ ts, Is x t = true
  | [] => by simp [OneOf.loop]
  | t :: ts => by
      have ih := OneOf.loop_iff x ts
      by_cases h : Is x t = true
      · simp [OneOf.loop, h]
      · simp [OneOf.loop, h, ih]

/-! ## Claims, continued -/

/-- C11, as stated, fails: no chain built with `New`, `NewWithErr` and `Wrap`,
of more than two levels or not, has a node whose `Code()` differs from the
`Code()` of the head. -/
theorem C11_no_built_chain_with_differing_codes :
    ¬ ∃ e : err, Built e ∧ 2 < e.nodes.length ∧ ∃ n ∈ e.nodes, n.Code ≠ e.Code := by
  rintro ⟨e, hb, _, n, hn, hne⟩
  exact hne (Built.node_code_eq_head hb n hn)

/-- C11 (amended): in every chain built with `New`, `NewWithErr` and `Wrap`,
the `Code()` of every node equals the `Code()` of the head, and the tail
appended by a further `Wrap(a)` has that same `Code()`: taking the code of the
immediate predecessor gives the same result as taking the code of the root. -/
theorem C11_built_codes_equal_head (e : err) (h : Built e) :
    (∀ n ∈ e.nodes, n.Code = e.Code) ∧
    ∀ a : error, (e.Wrap (some a)).last.Code = e.Code := by
  refine ⟨fun n hn => Built.node_code_eq_head h n hn, ?_⟩
  intro a
  have hw : Built (e.Wrap (some a)) := Built.wrap e (some a) h
  have h1 := Built.node_code_eq_head hw _ (err.last_mem_nodes (e.Wrap (some a)))
  rw [h1]
  simp [err.Code, err.code_Wrap]

/-- Witness of C11 (amended): three levels, each error created with a code of
its own. -/
theorem C11_built_codes_equal_head_witness :
    Built (((New "a" "C1").Wrap (some (.chain (New "b" "C2")))).Wrap
      (some (.chain (New "c" "C3")))) ∧
    ((∀ n ∈ (((New "a" "C1").Wrap (some (.chain (New "b" "C2")))).Wrap
        (some (.chain (New "c" "C3")))).nodes,
        n.Code = (((New "a" "C1").Wrap (some (.chain (New "b" "C2")))).Wrap
          (some (.chain (New "c" "C3")))).Code) ∧
     ∀ a : error, ((((New "a" "C1").Wrap (some (.chain (New "b" "C2")))).Wrap
        (some (.chain (New "c" "C3")))).Wrap (some a)).last.Code
        = (((New "a" "C1").Wrap (some (.chain (New "b" "C2")))).Wrap
          (some (.chain (New "c" "C3")))).Code) :=
  ⟨Built.wrap _ _ (Built.wrap _ _ (Built.new "a" "C1")),
   C11_built_codes_equal_head _ (Built.wrap _ _ (Built.wrap _ _ (Built.new "a" "C1")))⟩

/-- C12: `IsOnly(nil, nil)` is true, `IsOnly(err, nil)` is false for every
non-nil `err`, and with a nil target `IsOnly` is the comparison `err == nil`. -/
theorem C12_isOnly_nil_target :
    IsOnly none none = true ∧
    (∀ e : error, IsOnly (some e) none = false) ∧
    (∀ x : Option error, IsOnly x none = ifaceEq x none) :=
  ⟨rfl, fun _ => rfl, fun _ => rfl⟩

/-- C13: `OneOf(err, ts...)` is true exactly when `Is(err, t)` is true for at
least one `t` of `ts`; with zero targets it is false. -/
theorem C13_oneOf_iff_exists_is (x : Option error) (ts : List (Option error)) :
    (OneOf x ts = true ↔ ∃ t ∈ ts, Is x t = true) ∧ OneOf x [] = false := by
  refine ⟨?_, rfl⟩
  cases ts with
  | nil => simp [OneOf]
  | cons t ts =>
      have h := OneOf.loop_iff x (t :: ts)
      simpa [OneOf] using h

/-- C14: `NewWithErr(m, c, x)` is the chain `New(m, c).Wrap(x)` for every `x`,
nil included, and for a non-nil `x` the result satisfies `Is(_, x)`. -/
theorem C14_newWithErr_is_new_wrap (m c : String) :
    (∀ x : Option error, NewWithErr m c x = (New m c).Wrap x) ∧
    (∀ x : error, Is (some (.chain (NewWithErr m c (some x)))) (some x) = true) := by
  refine ⟨fun _ => rfl, ?_⟩
  intro x
  exact Is_of_msg_mem _ _ (err.msg_mem_fields_Wrap x (New m c))

/-- C15, as stated, fails: against a target of another, non-comparable type
whose message is `"x"`, `IsOnly(New("x", "c"), target)` is true; and against a
target of another, comparable type, `IsOnly(target, target)` is true. -/
theorem C15_isOnly_true_on_foreign_target :
    ¬ (IsOnly (some (.chain (New "x" "c"))) (some (.other 1 false "x" none)) = false) ∧
    ¬ (IsOnly (some (.other 2 true "eof" none)) (some (.other 2 true "eof" none)) = false) := by
  decide

/-- C15 (amended): against a non-nil target of another error type, with `err`
nil or an error-chain value, `IsOnly` compares values of different dynamic
types only, so it signals no type error, and its result is known exactly.  For
an error-chain value it is true exactly when the type of the target is not
comparable, the stored message of `err` equals `target.Error()` and `err` has
no cause; for a nil `err` it is true exactly when the type of the target is
not comparable.  So it is false whenever the type of the target is
comparable. -/
theorem C15_isOnly_on_foreign_target
    (id : Nat) (k : Bool) (msg : String) (cause : Option error) :
    (∀ e : err, (IsOnly (some (.chain e)) (some (.other id k msg cause)) = true ↔
      (k = false ∧ e.msg = msg ∧ e.cause = none))) ∧
    (IsOnly none (some (.other id k msg cause)) = true ↔ k = false) ∧
    (∀ e : err, IsOnly (some (.chain e)) (some (.other id true msg cause)) = false) ∧
    IsOnly none (some (.other id true msg cause)) = false := by
  refine ⟨?_, ?_, ?_, ?_⟩
  · intro e
    cases e with
    | mk m c n =>
        cases k <;> cases n <;>
          simp [IsOnly, error.Comparable, ifaceEq, error.eq, err.Is, error.Error, Unwrap,
            err.Unwrap]
  · cases k <;> simp [IsOnly, error.Comparable, ifaceEq, Unwrap]
  · intro e
    simp [IsOnly, error.Comparable, ifaceEq, error.eq]
  · simp [IsOnly, error.Comparable, ifaceEq]

/-- C18: chain-level `Is` is reflexive: for every chain `e`, `Is(e, e)` and
`OneOf(e, e)` are true, by value equality at the first hop. -/
theorem C18_is_reflexive (e : err) :
    Is (some (.chain e)) (some (.chain e)) = true ∧
    OneOf (some (.chain e)) [some (.chain e)] = true ∧
    error.eq (.chain e) (.chain e) = true := by
  have heq : error.eq (.chain e) (.chain e) = true := by
    simp [error.eq, err.eq_self]
  have his : Is (some (.chain e)) (some (.chain e)) = true := by
    cases e with
    | mk m c n =>
        cases n with
        | none =>
            have h := heq
            simp only [Is, error.isLoop, err.isLoop, error.Comparable, h]
            simp
        | some n =>
            have h := heq
            simp only [Is, error.isLoop, err.isLoop, error.Comparable, h]
            simp
  refine ⟨his, ?_, heq⟩
  rw [OneOf_singleton]
  exact his

end errors

namespace rest

open errors

/-- C16: for every status `s` and chain `e`, `NewError(s, e)` has
`StatusCode = s`, `Code = e.Code()`, `Err = e.Error()` and nil `Data`; two
chains with the same head message and code give the same response whatever
their causes. -/
theorem C16_newError_reads_head_only (s : Int) (e : err) :
    (NewError s (some (.chain e))).StatusCode = s ∧
    (NewError s (some (.chain e))).Code = e.Code ∧
    (NewError s (some (.chain e))).Err = e.Error ∧
    (NewError s (some (.chain e))).Data = none ∧
    (∀ (m c : String) (n₁ n₂ : Option err),
      NewError s (some (.chain (.mk m c n₁))) = NewError s (some (.chain (.mk m c n₂)))) :=
  ⟨rfl, rfl, rfl, rfl, fun _ _ _ _ => rfl⟩

/-- C17 (the code at the failing input): `Unauthorized(err)` carries the code
and description of `err`, and its `StatusCode` is 403, the value of
`http.StatusForbidden`, not 401. -/
theorem C17_unauthorized_status_is_forbidden :
    (Unauthorized (some (.chain (New "x" "c")))).StatusCode = 403 ∧
    (Unauthorized (some (.chain (New "x" "c")))).StatusCode ≠ StatusUnauthorized ∧
    (∀ x : Option error, (Unauthorized x).StatusCode = StatusForbidden) ∧
    (∀ e : err, (Unauthorized (some (.chain e))).Code = e.Code ∧
      (Unauthorized (some (.chain e))).Err = e.Error) :=
  ⟨rfl, by decide, fun _ => rfl, fun _ => ⟨rfl, rfl⟩⟩

end rest
